import Mathlib

/-
Shallow embedding of `src/lunohod_work_1.py` (msu_stress_poligraph).

Conventions of the embedding:
* Python floats are idealised as exact rationals (`ℚ`) for timestamps and
  sampling rates, and as exact reals (`ℝ`) for signal samples, so that the
  arithmetic of the source is exact-field arithmetic.  The one place where
  IEEE semantics matter observably (division by a zero standard deviation in
  `normalize_data`) is modelled explicitly by `lineLengthFeature` below.
* A log file is modelled after tokenisation: the source strips the BOM and
  surrounding whitespace from each line and splits on whitespace
  (`line.strip().replace("﻿","").split()`), so a line is a `List LogToken`
  and an empty line is the empty token list (subsumed by the `len(parts) < 3`
  check, exactly as in the source).  A token records how Python's `float()`
  and `int()` conversions behave on it: `intTok n` parses as both, `floatTok q`
  parses as a float but not as an int (e.g. "3.5"), `word s` parses as neither.
* File I/O is fallible: `LogSource` models the line iterator of
  `codecs.open(...)`: it yields `lines` and then raises iff `fail = true`
  (an open failure is the special case `lines = []`, `fail = true`).  The
  `try/except` of `parse_log_file` catches this and returns the intervals
  accumulated so far.
* `print`-based diagnostics are modelled as explicit warning lists
  (`LogWarning`, `ProcWarning`).
-/

/-- A whitespace-separated token of a log line, classified by how Python's
`float()` and `int()` conversions behave on it. -/
inductive LogToken where
  | intTok : ℤ → LogToken
  | floatTok : ℚ → LogToken
  | word : String → LogToken
deriving DecidableEq, Repr

/-- Python's `float(tok)`: succeeds on integer and float literals. -/
def parseFloatTok : LogToken → Option ℚ
  | LogToken.intTok n => some (n : ℚ)
  | LogToken.floatTok q => some q
  | LogToken.word _ => none

/-- Python's `int(tok)`: succeeds only on integer literals
(`int("3.5")` raises `ValueError`). -/
def parseIntTok : LogToken → Option ℤ
  | LogToken.intTok n => some n
  | LogToken.floatTok _ => none
  | LogToken.word _ => none

/-- The text of a token, used when label tokens are re-joined by
`" ".join(parts[3:])`. -/
def LogToken.render : LogToken → String
  | LogToken.intTok n => toString n
  | LogToken.floatTok q => toString q
  | LogToken.word s => s

/-- `label = " ".join(parts[3:]) if len(parts) > 3 else None` (line 54). -/
def labelOf (line : List LogToken) : Option String :=
  if 3 < line.length then
    some (String.intercalate " " ((line.drop 3).map LogToken.render))
  else none

/-- One stimulus interval produced by the log parser
(the dict `{"label": ..., "start": ..., "end": ...}`, lines 64-70). -/
structure StimulusInterval where
  label : Option String
  start : ℚ
  stop : ℚ
deriving DecidableEq, Repr

/-- Diagnostics printed by `parse_log_file`:
`unclosed` is line 58 ("незакрытый интервал" naming `current_label`),
`lineError` is line 74 (per-line `ValueError`),
`readError` is line 78 (failure to open/read the file). -/
inductive LogWarning where
  | unclosed : Option String → LogWarning
  | lineError : List LogToken → LogWarning
  | readError : LogWarning
deriving DecidableEq, Repr

/-- Full parser state: the accumulator `intervals`, the printed warnings and
the variables `current_start` / `current_label`. -/
structure ParserS where
  intervals : List StimulusInterval
  warnings : List LogWarning
  currentStart : Option ℚ
  currentLabel : Option String
deriving DecidableEq, Repr

/-- The body of the `for line in f` loop of `parse_log_file` (lines 37-75):
skip lines with fewer than 3 tokens, parse `float(parts[0])` and
`int(parts[2])` (a failure of either warns and skips the line), then run the
marker state machine: marker 5 opens a new interval (warning if one was
already open), marker 6 while open emits the interval and closes. -/
def stepLine (s : ParserS) (line : List LogToken) : ParserS :=
  if line.length < 3 then s
  else
    match parseFloatTok (line.getD 0 (LogToken.word "")),
          parseIntTok (line.getD 2 (LogToken.word "")) with
    | some time, some marker =>
      if marker = 5 then
        { s with
          warnings := s.warnings ++
            (match s.currentStart with
             | some _ => [LogWarning.unclosed s.currentLabel]
             | none => []),
          currentStart := some time,
          currentLabel := labelOf line }
      else
        match s.currentStart with
        | some st =>
          if marker = 6 then
            { s with
              intervals := s.intervals ++ [⟨s.currentLabel, st, time⟩],
              currentStart := none,
              currentLabel := none }
          else s
        | none => s
    | some _, none => { s with warnings := s.warnings ++ [LogWarning.lineError line] }
    | none, _ => { s with warnings := s.warnings ++ [LogWarning.lineError line] }

/-- Initial parser state (lines 30-32). -/
def initS : ParserS := ⟨[], [], none, none⟩

/-- The log file as seen by `parse_log_file`: the iterator of
`codecs.open(log_path)` yields `lines` and then raises iff `fail = true`.
An unopenable file is `lines = [], fail = true`. -/
structure LogSource where
  lines : List (List LogToken)
  fail : Bool
deriving DecidableEq, Repr

/-- Run the parsing loop over a list of lines from the initial state. -/
def runLines (lines : List (List LogToken)) : ParserS :=
  lines.foldl stepLine initS

/-- `parse_log_file` (lines 28-80): fold the line loop, and on a read failure
append the line-78 diagnostic; the intervals accumulated so far are returned
in every case (the `except` block falls through to `return intervals`). -/
def parse_log_file (src : LogSource) : List StimulusInterval × List LogWarning :=
  let s := runLines src.lines
  (s.intervals, s.warnings ++ if src.fail then [LogWarning.readError] else [])

/-- Python's `int()` applied to a rational: truncation toward zero
(`int(-0.5) = 0`, not `floor(-0.5) = -1`). -/
def pyInt (q : ℚ) : ℤ :=
  if 0 ≤ q then ⌊q⌋ else ⌈q⌉

/-- The inline interval mapper of `process_file` (lines 101-107):
`start_idx = int(interval["start"] * sr)`, `end_idx = int(interval["end"] * sr)`;
the interval is rejected (`continue`) when
`start_idx < 0 or end_idx > signals.shape[1] or start_idx >= end_idx`. -/
def map_interval (iv : StimulusInterval) (sr : ℚ) (total : ℕ) : Option (ℤ × ℤ) :=
  let s := pyInt (iv.start * sr)
  let e := pyInt (iv.stop * sr)
  if s < 0 ∨ (total : ℤ) < e ∨ e ≤ s then none else some (s, e)

/-- The numpy slice `channel[start_idx:end_idx]` for `0 ≤ s` and `e ≤ len`:
the elements with indices in the half-open range `[s, e)`. -/
def sliceChan (ch : List ℝ) (s e : ℤ) : List ℝ :=
  (ch.take e.toNat).drop s.toNat

/-- `np.mean` of a 1-D array: sum divided by length. -/
noncomputable def npMean (l : List ℝ) : ℝ :=
  l.sum / (l.length : ℝ)

/-- The population variance underlying `np.std` (ddof = 0):
mean of the squared deviations from the mean. -/
noncomputable def npVariance (l : List ℝ) : ℝ :=
  ((l.map (fun x => (x - npMean l) ^ 2)).sum) / (l.length : ℝ)

/-- `np.std`: square root of the population variance. -/
noncomputable def npStd (l : List ℝ) : ℝ :=
  Real.sqrt (npVariance l)

/-- Z-normalization of one channel: `(channel - np.mean(channel)) / np.std(channel)`. -/
noncomputable def normalizeChan (ch : List ℝ) : List ℝ :=
  ch.map (fun x => (x - npMean ch) / npStd ch)

/-- `normalize_data` (lines 13-15): per-channel z-normalization. -/
noncomputable def normalize_data (signals : List (List ℝ)) : List (List ℝ) :=
  signals.map normalizeChan

/-- `np.diff` of a 1-D array: differences of consecutive elements. -/
def diffs : List ℝ → List ℝ
  | [] => []
  | [_] => []
  | a :: b :: rest => (b - a) :: diffs (b :: rest)

/-- `calculate_line_length` (lines 18-20): `np.sum(np.abs(np.diff(signal)))`. -/
noncomputable def calculate_line_length (signal : List ℝ) : ℝ :=
  ((diffs signal).map (fun x => |x|)).sum

/-- `calculate_mean` (lines 23-25): `np.mean(signal)`. -/
noncomputable def calculate_mean (signal : List ℝ) : ℝ :=
  npMean signal

/-- The line-length value actually stored in the output for one channel slice,
under IEEE float semantics, i.e. `calculate_line_length` applied to the
z-normalized slice with `none` standing for a non-finite float result.
When `np.std` of the slice is `0.0`, every entry of
`(channel - mean) / std` is `0.0 / 0.0 = NaN` (all entries equal the mean),
so with at least two samples `np.sum(np.abs(np.diff(...)))` is NaN
(non-finite, modelled `none`); with a single sample `np.diff` is empty and
`np.sum([]) = 0.0`, a finite value.  With a nonzero standard deviation all
values are finite and the result is the exact-real `calculate_line_length`
of the normalized slice. -/
noncomputable def lineLengthFeature (ch : List ℝ) : Option ℝ :=
  if npVariance ch = 0 ∧ 2 ≤ ch.length then none
  else some (calculate_line_length (normalizeChan ch))

/-- One output row of `process_file` (lines 121-132): the metadata fields and,
for each channel label in order, the pair of the `<label>_Line_Length` value
(an `Option ℝ`, `none` = non-finite float) and the `<label>_Mean` value. -/
structure FeatureRecord where
  file : String
  label : Option String
  startTime : ℚ
  endTime : ℚ
  duration : ℚ
  channelFeatures : List (String × Option ℝ × ℝ)

/-- Assembly of one record (lines 112-132) from the raw per-channel slices of
an accepted interval: line lengths are computed on the z-normalized slices
(under float semantics, `lineLengthFeature`), means on the raw slices, and
channel `i`'s values are paired with `labels[i]`. -/
noncomputable def recordFor (base : String) (labels : List String)
    (iv : StimulusInterval) (slices : List (List ℝ)) : FeatureRecord :=
  { file := base
    label := iv.label
    startTime := iv.start
    endTime := iv.stop
    duration := iv.stop - iv.start
    channelFeatures :=
      List.zipWith (fun lab sl => (lab, lineLengthFeature sl, calculate_mean sl))
        labels slices }

/-- Diagnostics printed by `process_file`: `noIntervals` is line 93,
`badInterval` is line 106 ("Некорректный интервал"). -/
inductive ProcWarning where
  | noIntervals : ProcWarning
  | badInterval : StimulusInterval → ProcWarning
deriving DecidableEq, Repr

/-- The `for interval in intervals` loop of `process_file` (lines 100-134):
a rejected interval contributes a warning and no record, and processing
continues; an accepted interval slices every channel to `[start_idx, end_idx)`
and appends one record.  The `result[f"{label}_Line_Length"] = line_lengths[i]`
loop raises `IndexError` when there are more labels than channels, which the
enclosing `try` turns into a `None` result: modelled as `none`. -/
noncomputable def processIntervals (base : String) (labels : List String)
    (signals : List (List ℝ)) (sr : ℚ) (total : ℕ) :
    List StimulusInterval → Option (List FeatureRecord × List ProcWarning)
  | [] => some ([], [])
  | iv :: rest =>
    match map_interval iv sr total with
    | none =>
      (processIntervals base labels signals sr total rest).map
        (fun r => (r.1, ProcWarning.badInterval iv :: r.2))
    | some (s, e) =>
      if labels.length ≤ signals.length then
        (processIntervals base labels signals sr total rest).map
          (fun r =>
            (recordFor base labels iv (signals.map (fun ch => sliceChan ch s e)) :: r.1,
             r.2))
      else none

/-- `process_file` (lines 83-143).  `none` models the Python `None` returned on
the error paths of the enclosing `try`:
* ragged channel lists make `np.array(signals)` raise (`ValueError`);
* an empty parse result returns `None` at line 94 with the line-93 diagnostic;
* with no channels, `signals.shape[1]` raises `IndexError` at the first
  interval check;
* more labels than channels raise `IndexError` inside the loop.
Otherwise the accumulated records are returned (`some`), the total sample
count being the common channel length `signals.shape[1]`. -/
noncomputable def process_file (base : String) (signals : List (List ℝ))
    (labels : List String) (sr : ℚ) (src : LogSource) :
    Option (List FeatureRecord) × List ProcWarning :=
  match signals with
  | [] =>
    if (parse_log_file src).1.isEmpty then (none, [ProcWarning.noIntervals])
    else (none, [])
  | ch0 :: restCh =>
    if ∀ ch ∈ restCh, ch.length = ch0.length then
      if (parse_log_file src).1.isEmpty then (none, [ProcWarning.noIntervals])
      else
        match processIntervals base labels (ch0 :: restCh) sr ch0.length
            (parse_log_file src).1 with
        | none => (none, [])
        | some r => (some r.1, r.2)
    else (none, [])

/-- The part of the parser state the intervals depend on: everything except
the warning list (warnings are only ever appended to and never read). -/
structure CoreS where
  intervals : List StimulusInterval
  currentStart : Option ℚ
  currentLabel : Option String
deriving DecidableEq, Repr

/-- Projection of the full parser state onto its warning-free core. -/
def coreOf (s : ParserS) : CoreS :=
  ⟨s.intervals, s.currentStart, s.currentLabel⟩

/-- The state-machine event carried by a line, if any: a well-formed line
(at least 3 tokens, parseable timestamp and marker) whose marker is 5 or 6
yields `(time, marker, label)`; every other line leaves the core state
unchanged and yields no event. -/
def lineEvent (line : List LogToken) : Option (ℚ × ℤ × Option String) :=
  if line.length < 3 then none
  else
    match parseFloatTok (line.getD 0 (LogToken.word "")),
          parseIntTok (line.getD 2 (LogToken.word "")) with
    | some time, some marker =>
      if marker = 5 ∨ marker = 6 then some (time, marker, labelOf line) else none
    | _, _ => none

/-- The marker state machine on the warning-free core: marker 5 opens
(overwriting any open interval), marker 6 while open emits and closes. -/
def stepEvent (c : CoreS) (e : ℚ × ℤ × Option String) : CoreS :=
  if e.2.1 = 5 then ⟨c.intervals, some e.1, e.2.2⟩
  else
    match c.currentStart with
    | some st =>
      if e.2.1 = 6 then ⟨c.intervals ++ [⟨c.currentLabel, st, e.1⟩], none, none⟩ else c
    | none => c

/-- The sequence of marker-5/6 events of a token line list. -/
def eventsOf (lines : List (List LogToken)) : List (ℚ × ℤ × Option String) :=
  lines.filterMap lineEvent

/-- Specification of one properly closed start/end marker pair: the timestamp
and label of its marker-5 line and the timestamp (and unused label) of its
marker-6 line. -/
structure PairSpec where
  startT : ℚ
  label : Option String
  endT : ℚ
  endLabel : Option String
deriving DecidableEq, Repr

/-- The event sequence of a log made of properly alternating start/end pairs. -/
def pairEvents (ps : List PairSpec) : List (ℚ × ℤ × Option String) :=
  (ps.map (fun p => [(p.startT, (5 : ℤ), p.label), (p.endT, (6 : ℤ), p.endLabel)])).flatten

/-- The interval a pair of markers parses to. -/
def pairInterval (p : PairSpec) : StimulusInterval :=
  ⟨p.label, p.startT, p.endT⟩

/-- A line the parser skips as malformed: fewer than 3 tokens, or a token 0 on
which `float()` raises, or a token 2 on which `int()` raises. -/
def malformedLine (line : List LogToken) : Prop :=
  line.length < 3 ∨
    parseFloatTok (line.getD 0 (LogToken.word "")) = none ∨
    parseIntTok (line.getD 2 (LogToken.word "")) = none

/-- A well-formed start-marker line: at least 3 tokens, token 0 parses as the
timestamp `t`, token 2 parses as the marker code 5. -/
def startLine (line : List LogToken) (t : ℚ) : Prop :=
  3 ≤ line.length ∧
    parseFloatTok (line.getD 0 (LogToken.word "")) = some t ∧
    parseIntTok (line.getD 2 (LogToken.word "")) = some 5

instance (line : List LogToken) : Decidable (malformedLine line) := by
  unfold malformedLine
  infer_instance

instance (line : List LogToken) (t : ℚ) : Decidable (startLine line t) := by
  unfold startLine
  infer_instance

lemma coreOf_stepLine (s : ParserS) (line : List LogToken) :
    coreOf (stepLine s line) =
      match lineEvent line with
      | none => coreOf s
      | some e => stepEvent (coreOf s) e := by
  unfold stepLine lineEvent
  by_cases h3 : line.length < 3
  · simp [h3]
  · simp only [h3, if_false]
    rcases hf : parseFloatTok (line.getD 0 (LogToken.word "")) with _ | t
    · simp [coreOf]
    · rcases hi : parseIntTok (line.getD 2 (LogToken.word "")) with _ | m
      · simp [coreOf]
      · by_cases h5 : m = 5
        · simp [h5, coreOf, stepEvent]
        · by_cases h6 : m = 6
          · subst h6
            rcases hcs : s.currentStart with _ | st <;>
              simp [h5, hcs, coreOf, stepEvent]
          · rcases hcs : s.currentStart with _ | st <;>
              simp [h5, h6, hcs, coreOf, stepEvent]

lemma coreOf_foldl (s : ParserS) (lines : List (List LogToken)) :
    coreOf (lines.foldl stepLine s) =
      (eventsOf lines).foldl stepEvent (coreOf s) := by
  induction lines generalizing s with
  | nil => simp [eventsOf]
  | cons line rest ih =>
    have hstep := coreOf_stepLine s line
    simp only [List.foldl_cons, eventsOf, List.filterMap_cons]
    rcases he : lineEvent line with _ | e
    · rw [he] at hstep
      dsimp only at hstep
      rw [ih (stepLine s line), hstep]
      rfl
    · rw [he] at hstep
      dsimp only at hstep
      simp only [List.foldl_cons]
      rw [ih (stepLine s line), hstep]
      rfl

lemma pairEvents_cons (p : PairSpec) (rest : List PairSpec) :
    pairEvents (p :: rest) =
      (p.startT, (5 : ℤ), p.label) :: (p.endT, (6 : ℤ), p.endLabel) :: pairEvents rest := rfl

lemma foldl_stepEvent_pairs (ps : List PairSpec) (acc : List StimulusInterval) :
    (pairEvents ps).foldl stepEvent ⟨acc, none, none⟩ =
      ⟨acc ++ ps.map pairInterval, none, none⟩ := by
  induction ps generalizing acc with
  | nil => simp [pairEvents]
  | cons p rest ih =>
    have h5 : stepEvent ⟨acc, none, none⟩ (p.startT, (5 : ℤ), p.label) =
        ⟨acc, some p.startT, p.label⟩ := by simp [stepEvent]
    have h6 : stepEvent ⟨acc, some p.startT, p.label⟩ (p.endT, (6 : ℤ), p.endLabel) =
        ⟨acc ++ [pairInterval p], none, none⟩ := by
      simp [stepEvent, pairInterval]
    rw [pairEvents_cons, List.foldl_cons, List.foldl_cons, h5, h6,
      ih (acc ++ [pairInterval p])]
    simp

lemma stepLine_warnings_prefix (s : ParserS) (line : List LogToken) :
    ∃ tail, (stepLine s line).warnings = s.warnings ++ tail := by
  unfold stepLine
  by_cases h3 : line.length < 3
  · exact ⟨[], by simp [h3]⟩
  · simp only [h3, if_false]
    rcases hf : parseFloatTok (line.getD 0 (LogToken.word "")) with _ | t
    · exact ⟨[LogWarning.lineError line], rfl⟩
    · rcases hi : parseIntTok (line.getD 2 (LogToken.word "")) with _ | m
      · exact ⟨[LogWarning.lineError line], rfl⟩
      · by_cases h5 : m = 5
        · refine ⟨(match s.currentStart with
            | some _ => [LogWarning.unclosed s.currentLabel]
            | none => []), ?_⟩
          simp [h5]
        · rcases hcs : s.currentStart with _ | st
          · exact ⟨[], by simp [h5, hcs]⟩
          · by_cases h6 : m = 6
            · exact ⟨[], by simp [h5, h6, hcs]⟩
            · exact ⟨[], by simp [h5, h6, hcs]⟩

lemma mem_warnings_foldl (w : LogWarning) (s : ParserS)
    (lines : List (List LogToken)) (h : w ∈ s.warnings) :
    w ∈ (lines.foldl stepLine s).warnings := by
  induction lines generalizing s with
  | nil => simpa using h
  | cons line rest ih =>
    simp only [List.foldl_cons]
    apply ih
    obtain ⟨tail, ht⟩ := stepLine_warnings_prefix s line
    rw [ht]
    exact List.mem_append_left _ h

lemma runLines_append (pre post : List (List LogToken)) :
    runLines (pre ++ post) = post.foldl stepLine (runLines pre) := by
  simp [runLines, List.foldl_append]

lemma stepLine_start (s : ParserS) (line : List LogToken) (t : ℚ)
    (h : startLine line t) :
    stepLine s line =
      { s with
        warnings := s.warnings ++
          (match s.currentStart with
           | some _ => [LogWarning.unclosed s.currentLabel]
           | none => []),
        currentStart := some t,
        currentLabel := labelOf line } := by
  obtain ⟨h3, hf, hm⟩ := h
  unfold stepLine
  rw [if_neg (by omega), hf, hm]
  simp

lemma lineEvent_of_malformed (line : List LogToken) (h : malformedLine line) :
    lineEvent line = none := by
  unfold lineEvent
  rcases h with h3 | hf | hi
  · simp [h3]
  · by_cases h3 : line.length < 3
    · simp [h3]
    · rw [if_neg h3, hf]
  · by_cases h3 : line.length < 3
    · simp [h3]
    · rw [if_neg h3, hi]
      rcases parseFloatTok (line.getD 0 (LogToken.word "")) with _ | t <;> rfl

lemma parse_fst (src : LogSource) :
    (parse_log_file src).1 = (runLines src.lines).intervals := rfl

lemma stepLine_start_open (s : ParserS) (line : List LogToken) (t t1 : ℚ)
    (hopen : s.currentStart = some t1) (h : startLine line t) :
    stepLine s line =
      { s with
        warnings := s.warnings ++ [LogWarning.unclosed s.currentLabel],
        currentStart := some t,
        currentLabel := labelOf line } := by
  rw [stepLine_start s line t h, hopen]

/-- C2: for every log whose sequence of well-formed marker-5/6 events consists
of N properly alternating start/end pairs (arbitrary malformed, short,
non-marker or stray lines elsewhere), `parse_log_file` returns exactly those N
intervals in encounter order, each one taking its label and start time from
its marker-5 line and its end time from its marker-6 line. -/
theorem c2_paired_markers_parse_in_order (src : LogSource) (ps : List PairSpec)
    (h : eventsOf src.lines = pairEvents ps) :
    (parse_log_file src).1 = ps.map pairInterval := by
  have hcore : coreOf (runLines src.lines) =
      (eventsOf src.lines).foldl stepEvent (coreOf initS) :=
    coreOf_foldl initS src.lines
  rw [h] at hcore
  have hinit : coreOf initS = (⟨[], none, none⟩ : CoreS) := rfl
  rw [hinit, foldl_stepEvent_pairs ps []] at hcore
  rw [parse_fst]
  have := congrArg CoreS.intervals hcore
  simpa using this

/-- C2 witness: the concrete log "2 x 5 s" / "4 y 6" parses to the single
interval (label "s", start 2, end 4). -/
theorem c2_witness :
    eventsOf [[LogToken.intTok 2, LogToken.word "x", LogToken.intTok 5, LogToken.word "s"],
        [LogToken.intTok 4, LogToken.word "y", LogToken.intTok 6]] =
      pairEvents [⟨2, some "s", 4, none⟩] ∧
    (parse_log_file
        ⟨[[LogToken.intTok 2, LogToken.word "x", LogToken.intTok 5, LogToken.word "s"],
          [LogToken.intTok 4, LogToken.word "y", LogToken.intTok 6]], false⟩).1 =
      [⟨2, some "s", 4, none⟩].map pairInterval :=
  ⟨by decide,
   c2_paired_markers_parse_in_order
     ⟨[[LogToken.intTok 2, LogToken.word "x", LogToken.intTok 5, LogToken.word "s"],
       [LogToken.intTok 4, LogToken.word "y", LogToken.intTok 6]], false⟩
     [⟨2, some "s", 4, none⟩] (by decide)⟩

/-- C6: a well-formed start-marker line hit while an interval is already open
emits no interval for the first start (the interval list is unchanged), a
warning naming the open interval's label is produced, and the open start time
and label are overwritten by the new line's; the warning survives into the
final result of `parse_log_file`. -/
theorem c6_second_start_overwrites (pre : List (List LogToken))
    (line : List LogToken) (rest : List (List LogToken)) (fail : Bool)
    (t1 t2 : ℚ) (hopen : (runLines pre).currentStart = some t1)
    (hline : startLine line t2) :
    (runLines (pre ++ [line])).intervals = (runLines pre).intervals ∧
    (runLines (pre ++ [line])).currentStart = some t2 ∧
    (runLines (pre ++ [line])).currentLabel = labelOf line ∧
    (runLines (pre ++ [line])).warnings =
      (runLines pre).warnings ++ [LogWarning.unclosed (runLines pre).currentLabel] ∧
    LogWarning.unclosed (runLines pre).currentLabel ∈
      (parse_log_file ⟨pre ++ line :: rest, fail⟩).2 := by
  have happ : runLines (pre ++ [line]) = stepLine (runLines pre) line := by
    rw [runLines_append]
    rfl
  have hstep := stepLine_start_open (runLines pre) line t2 t1 hopen hline
  refine ⟨by rw [happ, hstep], by rw [happ, hstep], by rw [happ, hstep],
    by rw [happ, hstep], ?_⟩
  have hsplit : pre ++ line :: rest = (pre ++ [line]) ++ rest := by simp
  have hrun : runLines (pre ++ line :: rest) =
      rest.foldl stepLine (stepLine (runLines pre) line) := by
    rw [hsplit, runLines_append, happ]
  show LogWarning.unclosed (runLines pre).currentLabel ∈
    (runLines (pre ++ line :: rest)).warnings ++ _
  apply List.mem_append_left
  rw [hrun]
  apply mem_warnings_foldl
  rw [hstep]
  simp

/-- C6 witness: log "1 x 5 first" then "3 x 5 second": the overwrite leaves no
interval, sets the new start 3, and warns naming label "first". -/
theorem c6_witness :
    (runLines [[LogToken.intTok 1, LogToken.word "x", LogToken.intTok 5,
        LogToken.word "first"]]).currentStart = some 1 ∧
    startLine [LogToken.intTok 3, LogToken.word "x", LogToken.intTok 5,
        LogToken.word "second"] 3 ∧
    ((runLines ([[LogToken.intTok 1, LogToken.word "x", LogToken.intTok 5,
          LogToken.word "first"]] ++
        [[LogToken.intTok 3, LogToken.word "x", LogToken.intTok 5,
          LogToken.word "second"]])).intervals =
      (runLines [[LogToken.intTok 1, LogToken.word "x", LogToken.intTok 5,
          LogToken.word "first"]]).intervals ∧
    (runLines ([[LogToken.intTok 1, LogToken.word "x", LogToken.intTok 5,
          LogToken.word "first"]] ++
        [[LogToken.intTok 3, LogToken.word "x", LogToken.intTok 5,
          LogToken.word "second"]])).currentStart = some 3 ∧
    (runLines ([[LogToken.intTok 1, LogToken.word "x", LogToken.intTok 5,
          LogToken.word "first"]] ++
        [[LogToken.intTok 3, LogToken.word "x", LogToken.intTok 5,
          LogToken.word "second"]])).currentLabel =
      labelOf [LogToken.intTok 3, LogToken.word "x", LogToken.intTok 5,
          LogToken.word "second"] ∧
    (runLines ([[LogToken.intTok 1, LogToken.word "x", LogToken.intTok 5,
          LogToken.word "first"]] ++
        [[LogToken.intTok 3, LogToken.word "x", LogToken.intTok 5,
          LogToken.word "second"]])).warnings =
      (runLines [[LogToken.intTok 1, LogToken.word "x", LogToken.intTok 5,
          LogToken.word "first"]]).warnings ++
        [LogWarning.unclosed
          (runLines [[LogToken.intTok 1, LogToken.word "x", LogToken.intTok 5,
            LogToken.word "first"]]).currentLabel] ∧
    LogWarning.unclosed
        (runLines [[LogToken.intTok 1, LogToken.word "x", LogToken.intTok 5,
          LogToken.word "first"]]).currentLabel ∈
      (parse_log_file ⟨[[LogToken.intTok 1, LogToken.word "x", LogToken.intTok 5,
          LogToken.word "first"]] ++
        [LogToken.intTok 3, LogToken.word "x", LogToken.intTok 5,
          LogToken.word "second"] :: [], false⟩).2) :=
  ⟨by decide, by decide,
   c6_second_start_overwrites
     [[LogToken.intTok 1, LogToken.word "x", LogToken.intTok 5, LogToken.word "first"]]
     [LogToken.intTok 3, LogToken.word "x", LogToken.intTok 5, LogToken.word "second"]
     [] false 1 3 (by decide) (by decide)⟩

/-- C7: a log ending in a well-formed start-marker line leaves the parser OPEN
at end-of-file and `parse_log_file` returns exactly the intervals it would
return without that trailing line: the trailing open start silently vanishes,
no record is emitted for it. -/
theorem c7_trailing_open_start_vanishes (pre : List (List LogToken))
    (line : List LogToken) (fail : Bool) (t : ℚ) (hline : startLine line t) :
    (parse_log_file ⟨pre ++ [line], fail⟩).1 = (parse_log_file ⟨pre, fail⟩).1 ∧
    (runLines (pre ++ [line])).currentStart = some t := by
  have happ : runLines (pre ++ [line]) = stepLine (runLines pre) line := by
    rw [runLines_append]
    rfl
  have hstep := stepLine_start (runLines pre) line t hline
  constructor
  · rw [parse_fst, parse_fst, happ, hstep]
  · rw [happ, hstep]

/-- C7 witness: appending the trailing start line "7 x 5" to the closed log
"1 x 5" / "2 x 6" leaves the parse result unchanged and the parser OPEN. -/
theorem c7_witness :
    startLine [LogToken.intTok 7, LogToken.word "x", LogToken.intTok 5] 7 ∧
    ((parse_log_file ⟨[[LogToken.intTok 1, LogToken.word "x", LogToken.intTok 5],
          [LogToken.intTok 2, LogToken.word "x", LogToken.intTok 6]] ++
        [[LogToken.intTok 7, LogToken.word "x", LogToken.intTok 5]], false⟩).1 =
      (parse_log_file ⟨[[LogToken.intTok 1, LogToken.word "x", LogToken.intTok 5],
          [LogToken.intTok 2, LogToken.word "x", LogToken.intTok 6]], false⟩).1 ∧
    (runLines ([[LogToken.intTok 1, LogToken.word "x", LogToken.intTok 5],
          [LogToken.intTok 2, LogToken.word "x", LogToken.intTok 6]] ++
        [[LogToken.intTok 7, LogToken.word "x", LogToken.intTok 5]])).currentStart =
      some 7) :=
  ⟨by decide,
   c7_trailing_open_start_vanishes
     [[LogToken.intTok 1, LogToken.word "x", LogToken.intTok 5],
      [LogToken.intTok 2, LogToken.word "x", LogToken.intTok 6]]
     [LogToken.intTok 7, LogToken.word "x", LogToken.intTok 5] false 7 (by decide)⟩

/-- C10: a malformed line (fewer than 3 tokens, or unparseable timestamp
token, or unparseable marker token) leaves the parser's interval list, open
start time and open label unchanged, and deleting such a line from anywhere in
a log does not change the parsed intervals. -/
theorem c10_malformed_line_no_state_change (s : ParserS) (line : List LogToken)
    (pre post : List (List LogToken)) (fail : Bool) (h : malformedLine line) :
    (stepLine s line).intervals = s.intervals ∧
    (stepLine s line).currentStart = s.currentStart ∧
    (stepLine s line).currentLabel = s.currentLabel ∧
    (parse_log_file ⟨pre ++ line :: post, fail⟩).1 =
      (parse_log_file ⟨pre ++ post, fail⟩).1 := by
  have hev := lineEvent_of_malformed line h
  have hcore := coreOf_stepLine s line
  rw [hev] at hcore
  dsimp only at hcore
  refine ⟨congrArg CoreS.intervals hcore, congrArg CoreS.currentStart hcore,
    congrArg CoreS.currentLabel hcore, ?_⟩
  rw [parse_fst, parse_fst]
  have hev2 : eventsOf (pre ++ line :: post) = eventsOf (pre ++ post) := by
    simp [eventsOf, List.filterMap_append, List.filterMap_cons, hev]
  have hc : coreOf (runLines (pre ++ line :: post)) = coreOf (runLines (pre ++ post)) := by
    rw [runLines, runLines, coreOf_foldl, coreOf_foldl, hev2]
  exact congrArg CoreS.intervals hc

/-- C10 witness: the malformed line "oops x 5" between "1 x 5 a" and "2 x 6"
changes nothing: the parse still yields the single interval (a, 1, 2). -/
theorem c10_witness :
    malformedLine [LogToken.word "oops", LogToken.word "x", LogToken.intTok 5] ∧
    ((stepLine initS [LogToken.word "oops", LogToken.word "x", LogToken.intTok 5]).intervals =
        initS.intervals ∧
    (stepLine initS [LogToken.word "oops", LogToken.word "x", LogToken.intTok 5]).currentStart =
        initS.currentStart ∧
    (stepLine initS [LogToken.word "oops", LogToken.word "x", LogToken.intTok 5]).currentLabel =
        initS.currentLabel ∧
    (parse_log_file ⟨[[LogToken.intTok 1, LogToken.word "x", LogToken.intTok 5, LogToken.word "a"]] ++
        [LogToken.word "oops", LogToken.word "x", LogToken.intTok 5] ::
          [[LogToken.intTok 2, LogToken.word "x", LogToken.intTok 6]], false⟩).1 =
      (parse_log_file ⟨[[LogToken.intTok 1, LogToken.word "x", LogToken.intTok 5, LogToken.word "a"]] ++
        [[LogToken.intTok 2, LogToken.word "x", LogToken.intTok 6]], false⟩).1) :=
  ⟨by decide,
   c10_malformed_line_no_state_change initS
     [LogToken.word "oops", LogToken.word "x", LogToken.intTok 5]
     [[LogToken.intTok 1, LogToken.word "x", LogToken.intTok 5, LogToken.word "a"]]
     [[LogToken.intTok 2, LogToken.word "x", LogToken.intTok 6]] false (by decide)⟩

/-- C9 counterexample: a log source whose read fails after two good lines
(e.g. an undecodable byte later in the file).  `parse_log_file` emits the
read-failure warning but returns the one interval parsed before the failure,
not an empty list as the claim states. -/
theorem c9_counterexample :
    parse_log_file ⟨[[LogToken.intTok 1, LogToken.word "x", LogToken.intTok 5],
        [LogToken.intTok 2, LogToken.word "x", LogToken.intTok 6]], true⟩ =
      ([⟨none, 1, 2⟩], [LogWarning.readError]) ∧
    ([⟨none, (1 : ℚ), (2 : ℚ)⟩] : List StimulusInterval) ≠ [] := by
  constructor
  · decide
  · decide

/-- C9 amended: on any read failure `parse_log_file` does not raise: it emits
the read-error warning and returns the intervals parsed before the failure;
in particular when the file cannot be opened at all (no line was read) the
returned interval list is empty. -/
theorem c9_read_failure_soft (src : LogSource) (hfail : src.fail = true) :
    LogWarning.readError ∈ (parse_log_file src).2 ∧
    (src.lines = [] → parse_log_file src = ([], [LogWarning.readError])) := by
  constructor
  · show LogWarning.readError ∈ (runLines src.lines).warnings ++ _
    rw [hfail]
    simp
  · intro hnil
    show ((runLines src.lines).intervals, _) = _
    rw [hnil, hfail]
    rfl

/-- C9 witness: the unopenable file (no lines, failed read) yields the empty
interval list and the read-error warning. -/
theorem c9_witness :
    (⟨[], true⟩ : LogSource).fail = true ∧
    (LogWarning.readError ∈ (parse_log_file ⟨[], true⟩).2 ∧
      ((⟨[], true⟩ : LogSource).lines = [] →
        parse_log_file ⟨[], true⟩ = ([], [LogWarning.readError]))) :=
  ⟨rfl, c9_read_failure_soft ⟨[], true⟩ rfl⟩

lemma sum_map_add_const (l : List ℝ) (c : ℝ) :
    (l.map (fun x => x + c)).sum = l.sum + l.length * c := by
  induction l with
  | nil => simp
  | cons a t ih =>
    simp only [List.map_cons, List.sum_cons, List.length_cons, ih]
    push_cast
    ring

lemma length_cast_ne_zero (l : List ℝ) (h : l ≠ []) : (l.length : ℝ) ≠ 0 := by
  have : l.length ≠ 0 := fun h0 => h (List.length_eq_zero.mp h0)
  exact_mod_cast this

lemma npMean_shift (l : List ℝ) (c : ℝ) (h : l ≠ []) :
    npMean (l.map (fun x => x + c)) = npMean l + c := by
  have hn := length_cast_ne_zero l h
  unfold npMean
  rw [sum_map_add_const, List.length_map]
  field_simp
  ring

lemma npVariance_shift (l : List ℝ) (c : ℝ) :
    npVariance (l.map (fun x => x + c)) = npVariance l := by
  rcases eq_or_ne l [] with rfl | h
  · simp
  · unfold npVariance
    rw [npMean_shift l c h, List.length_map, List.map_map]
    have hm : List.map ((fun x => (x - (npMean l + c)) ^ 2) ∘ fun x => x + c) l =
        List.map (fun x => (x - npMean l) ^ 2) l :=
      List.map_congr_left (fun a _ => by simp only [Function.comp_apply]; ring)
    rw [hm]

lemma normalizeChan_shift (l : List ℝ) (c : ℝ) :
    normalizeChan (l.map (fun x => x + c)) = normalizeChan l := by
  rcases eq_or_ne l [] with rfl | h
  · simp [normalizeChan]
  · unfold normalizeChan npStd
    rw [npVariance_shift, npMean_shift l c h, List.map_map]
    apply List.map_congr_left
    intro a _
    simp only [Function.comp_apply]
    ring_nf

/-- C5: the line-length feature (sum of absolute first differences of the
z-normalized segment) is invariant under adding a constant to every sample of
a segment of nonzero variance: the normalization subtracts the shifted mean
and divides by the unchanged standard deviation, so the normalized segments
coincide. -/
theorem c5_line_length_shift_invariant (ch : List ℝ) (c : ℝ)
    (_h : npVariance ch ≠ 0) :
    calculate_line_length (normalizeChan (ch.map (fun x => x + c))) =
      calculate_line_length (normalizeChan ch) := by
  rw [normalizeChan_shift]

/-- C5 witness: the segment [0, 1] has variance 1/4 ≠ 0, and shifting it by 1
leaves the line-length feature unchanged. -/
theorem c5_witness :
    npVariance [(0 : ℝ), 1] ≠ 0 ∧
    calculate_line_length (normalizeChan (([(0 : ℝ), 1]).map (fun x => x + 1))) =
      calculate_line_length (normalizeChan [(0 : ℝ), 1]) :=
  ⟨by norm_num [npVariance, npMean], c5_line_length_shift_invariant [0, 1] 1 (by norm_num [npVariance, npMean])⟩

lemma sliceChan_spec (ch : List ℝ) (s e : ℤ) (h0 : 0 ≤ s) (hse : s ≤ e)
    (he : e.toNat ≤ ch.length) :
    (sliceChan ch s e).length = (e - s).toNat ∧
    ∀ k, k < (e - s).toNat → (sliceChan ch s e).getD k 0 = ch.getD (s.toNat + k) 0 := by
  constructor
  · simp only [sliceChan, List.length_drop, List.length_take]
    omega
  · intro k hk
    have hlt : s.toNat + k < e.toNat := by omega
    have hltch : s.toNat + k < ch.length := by omega
    simp only [sliceChan, List.getD_eq_getElem?_getD, List.getElem?_drop,
      List.getElem?_take]
    rw [if_pos hlt]

lemma record_means (labels : List String) (slices : List (List ℝ)) :
    (List.zipWith (fun lab sl => (lab, lineLengthFeature sl, calculate_mean sl))
        labels slices).map (fun t => t.2.2) =
      (slices.take labels.length).map (fun sl => sl.sum / (sl.length : ℝ)) := by
  induction labels generalizing slices with
  | nil => simp
  | cons lab rest ih =>
    cases slices with
    | nil => simp
    | cons sl ss =>
      simp only [List.zipWith_cons_cons, List.map_cons, List.length_cons,
        List.take_succ_cons, ih ss]
      rfl

lemma record_lls (labels : List String) (slices : List (List ℝ)) :
    (List.zipWith (fun lab sl => (lab, lineLengthFeature sl, calculate_mean sl))
        labels slices).map (fun t => t.2.1) =
      (slices.take labels.length).map lineLengthFeature := by
  induction labels generalizing slices with
  | nil => simp
  | cons lab rest ih =>
    cases slices with
    | nil => simp
    | cons sl ss => simp [ih]

lemma record_labels (labels : List String) (slices : List (List ℝ))
    (h : labels.length ≤ slices.length) :
    (List.zipWith (fun lab sl => (lab, lineLengthFeature sl, calculate_mean sl))
        labels slices).map Prod.fst = labels := by
  induction labels generalizing slices with
  | nil => simp
  | cons lab rest ih =>
    cases slices with
    | nil => simp at h
    | cons sl ss =>
      simp only [List.length_cons, Nat.add_le_add_iff_right] at h
      simp [ih ss h]

/-- C3 counterexample: for the interval [-1/200, 1/100] at rate 100 and 1000
total samples, `floor(start * rate) = -1 < 0`, so under the claim's floor-based
formula the interval must be rejected; the code instead truncates toward zero
(`int(-0.5) = 0`) and accepts the interval with index range [0, 1). -/
theorem c3_counterexample :
    map_interval ⟨none, -(1 / 200), 1 / 100⟩ 100 1000 = some (0, 1) ∧
    (⌊(-(1 / 200) : ℚ) * 100⌋ : ℤ) = -1 ∧
    ¬ (map_interval ⟨none, -(1 / 200), 1 / 100⟩ 100 1000 = none ↔
        (⌊(-(1 / 200) : ℚ) * 100⌋ : ℤ) < 0 ∨
          (1000 : ℤ) < ⌊((1 / 100 : ℚ)) * 100⌋ ∨
          ⌊((1 / 100 : ℚ)) * 100⌋ ≤ ⌊(-(1 / 200) : ℚ) * 100⌋) := by
  have hs : pyInt ((-(1 / 200) : ℚ) * 100) = 0 := by
    unfold pyInt
    rw [if_neg (by norm_num)]
    norm_num
  have he : pyInt (((1 / 100) : ℚ) * 100) = 1 := by
    unfold pyInt
    rw [if_pos (by norm_num)]
    norm_num
  have hfl : (⌊(-(1 / 200) : ℚ) * 100⌋ : ℤ) = -1 := by norm_num
  have h1 : map_interval ⟨none, -(1 / 200), 1 / 100⟩ 100 1000 = some (0, 1) := by
    unfold map_interval
    dsimp only
    rw [hs, he]
    norm_num
  refine ⟨h1, hfl, ?_⟩
  intro hiff
  have := hiff.mpr (Or.inl (by rw [hfl]; norm_num))
  rw [h1] at this
  exact Option.noConfusion this

/-- C3 amended: the mapper computes `start_index` and `end_index` by Python's
`int()`, i.e. truncation toward zero (which agrees with floor exactly when the
products are non-negative), rejects iff `start_index < 0` or
`end_index > total` or `start_index >= end_index`; an accepted interval has
`0 ≤ start_index < end_index ≤ total` and slices exactly the half-open index
range `[start_index, end_index)` of every channel; a rejected interval
produces no record, produces a warning, and processing continues with the
remaining intervals. -/
theorem c3_trunc_mapper (iv : StimulusInterval) (sr : ℚ) (total : ℕ) :
    (map_interval iv sr total = none ↔
      pyInt (iv.start * sr) < 0 ∨ (total : ℤ) < pyInt (iv.stop * sr) ∨
        pyInt (iv.stop * sr) ≤ pyInt (iv.start * sr)) ∧
    (∀ s e, map_interval iv sr total = some (s, e) →
      s = pyInt (iv.start * sr) ∧ e = pyInt (iv.stop * sr) ∧
      0 ≤ s ∧ s < e ∧ e ≤ (total : ℤ) ∧
      ∀ ch : List ℝ, e.toNat ≤ ch.length →
        (sliceChan ch s e).length = (e - s).toNat ∧
        ∀ k, k < (e - s).toNat →
          (sliceChan ch s e).getD k 0 = ch.getD (s.toNat + k) 0) ∧
    (∀ (base : String) (labels : List String) (signals : List (List ℝ))
        (rest : List StimulusInterval) (recs : List FeatureRecord)
        (ws : List ProcWarning),
      map_interval iv sr total = none →
      processIntervals base labels signals sr total rest = some (recs, ws) →
      processIntervals base labels signals sr total (iv :: rest) =
        some (recs, ProcWarning.badInterval iv :: ws)) := by
  refine ⟨?_, ?_, ?_⟩
  · unfold map_interval
    by_cases hc : pyInt (iv.start * sr) < 0 ∨ (total : ℤ) < pyInt (iv.stop * sr) ∨
        pyInt (iv.stop * sr) ≤ pyInt (iv.start * sr)
    · simp [hc]
    · simp [hc]
  · intro s e hsome
    unfold map_interval at hsome
    by_cases hc : pyInt (iv.start * sr) < 0 ∨ (total : ℤ) < pyInt (iv.stop * sr) ∨
        pyInt (iv.stop * sr) ≤ pyInt (iv.start * sr)
    · simp [hc] at hsome
    · simp only [hc, if_false] at hsome
      obtain ⟨rfl, rfl⟩ := Prod.mk.injEq .. ▸ Option.some.injEq .. ▸ hsome
      push_neg at hc
      obtain ⟨h1, h2, h3⟩ := hc
      refine ⟨rfl, rfl, by omega, by omega, by omega, ?_⟩
      intro ch hch
      exact sliceChan_spec ch _ _ (by omega) (by omega) hch
  · intro base labels signals rest recs ws hnone hrest
    unfold processIntervals
    rw [hnone, hrest]
    rfl

/-- C3 witness: the amended mapper characterization instantiated at the
interval [2, 4], rate 100, 1000 samples: accepted with index range [200, 400). -/
theorem c3_witness :
    map_interval ⟨none, 2, 4⟩ 100 1000 = none ↔
      pyInt ((2 : ℚ) * 100) < 0 ∨ (1000 : ℤ) < pyInt ((4 : ℚ) * 100) ∨
        pyInt ((4 : ℚ) * 100) ≤ pyInt ((2 : ℚ) * 100) :=
  (c3_trunc_mapper ⟨none, 2, 4⟩ 100 1000).1

lemma npVariance_const (ch : List ℝ) (v : ℝ) (hall : ∀ x ∈ ch, x = v)
    (hne : ch ≠ []) : npVariance ch = 0 := by
  have hn := length_cast_ne_zero ch hne
  have hsum : ch.sum = (ch.length : ℝ) * v := by
    rw [List.sum_eq_card_nsmul ch v hall, nsmul_eq_mul]
  have hmean : npMean ch = v := by
    unfold npMean
    rw [hsum]
    field_simp
  have hdev : ch.map (fun x => (x - npMean ch) ^ 2) = ch.map (fun _ => 0) :=
    List.map_congr_left (fun a ha => by rw [hmean, hall a ha]; ring)
  unfold npVariance
  rw [hdev]
  simp

lemma processIntervals_accept (base : String) (labels : List String)
    (signals : List (List ℝ)) (sr : ℚ) (total : ℕ) (iv : StimulusInterval)
    (rest : List StimulusInterval) (s e : ℤ)
    (recs : List FeatureRecord) (ws : List ProcWarning)
    (hacc : map_interval iv sr total = some (s, e))
    (hlab : labels.length ≤ signals.length)
    (hrest : processIntervals base labels signals sr total rest = some (recs, ws)) :
    processIntervals base labels signals sr total (iv :: rest) =
      some (recordFor base labels iv (signals.map (fun ch => sliceChan ch s e)) :: recs,
        ws) := by
  unfold processIntervals
  rw [hacc]
  dsimp only
  rw [if_pos hlab, hrest]
  rfl

/-- C4: for every accepted interval, the mean column values of the emitted
FeatureRecord are exactly the arithmetic means (sum over length) of the raw,
non-normalized channel slices of the interval's sample range, recomputed
directly from the signals; the z-normalization feeding the line-length feature
plays no part in them. -/
theorem c4_mean_is_raw_mean (base : String) (labels : List String)
    (signals : List (List ℝ)) (sr : ℚ) (total : ℕ) (iv : StimulusInterval)
    (rest : List StimulusInterval) (s e : ℤ)
    (recs : List FeatureRecord) (ws : List ProcWarning)
    (hacc : map_interval iv sr total = some (s, e))
    (hlab : labels.length ≤ signals.length)
    (hrest : processIntervals base labels signals sr total rest = some (recs, ws)) :
    processIntervals base labels signals sr total (iv :: rest) =
      some (recordFor base labels iv (signals.map (fun ch => sliceChan ch s e)) :: recs,
        ws) ∧
    (recordFor base labels iv (signals.map (fun ch => sliceChan ch s e))).channelFeatures.map
        (fun t => t.2.2) =
      ((signals.map (fun ch => sliceChan ch s e)).take labels.length).map
        (fun sl => sl.sum / (sl.length : ℝ)) :=
  ⟨processIntervals_accept base labels signals sr total iv rest s e recs ws hacc hlab hrest,
   record_means labels (signals.map (fun ch => sliceChan ch s e))⟩

/-- C4 witness: one channel [1, 3], interval [0, 1/50] at rate 100 (sample
range [0, 2)): the emitted mean column is [(1 + 3) / 2] = [2]. -/
theorem c4_witness :
    map_interval ⟨none, 0, 1 / 50⟩ 100 2 = some (0, 2) ∧
    (processIntervals "f" ["a"] [[(1 : ℝ), 3]] 100 2 [⟨none, 0, 1 / 50⟩] =
      some (recordFor "f" ["a"] ⟨none, 0, 1 / 50⟩
        ([[(1 : ℝ), 3]].map (fun ch => sliceChan ch 0 2)) :: [], []) ∧
    (recordFor "f" ["a"] ⟨none, 0, 1 / 50⟩
        ([[(1 : ℝ), 3]].map (fun ch => sliceChan ch 0 2))).channelFeatures.map
        (fun t => t.2.2) =
      (([[(1 : ℝ), 3]].map (fun ch => sliceChan ch 0 2)).take 1).map
        (fun sl => sl.sum / (sl.length : ℝ))) := by
  have hacc : map_interval ⟨none, 0, 1 / 50⟩ 100 2 = some (0, 2) := by
    have h0 : pyInt ((0 : ℚ) * 100) = 0 := by
      unfold pyInt
      rw [if_pos (by norm_num)]
      norm_num
    have h2 : pyInt (((1 : ℚ) / 50) * 100) = 2 := by
      unfold pyInt
      rw [if_pos (by norm_num)]
      norm_num
    unfold map_interval
    dsimp only
    rw [h0, h2]
    norm_num
  exact ⟨hacc,
    c4_mean_is_raw_mean "f" ["a"] [[(1 : ℝ), 3]] 100 2 ⟨none, 0, 1 / 50⟩ [] 0 2 [] []
      hacc (by norm_num) rfl⟩

/-- C8 amended: an all-equal channel slice with at least two samples makes the
z-normalization divide by a zero standard deviation, and the resulting
line-length feature is the non-finite marker (`none`), surfaced as-is in the
emitted FeatureRecord's line-length column; the record is still assembled and
emitted and processing does not crash.  (With exactly one sample the division
by zero also occurs, but `np.diff` of a one-element array is empty and the
line-length feature is the finite value 0.0.) -/
theorem c8_zero_variance_propagates (ch : List ℝ) (v : ℝ)
    (hall : ∀ x ∈ ch, x = v) (h2 : 2 ≤ ch.length)
    (base : String) (labels : List String) (iv : StimulusInterval)
    (slices : List (List ℝ)) :
    lineLengthFeature ch = none ∧
    (recordFor base labels iv slices).channelFeatures.map (fun t => t.2.1) =
      (slices.take labels.length).map lineLengthFeature ∧
    (∀ (signals : List (List ℝ)) (sr : ℚ) (total : ℕ)
        (rest : List StimulusInterval) (s e : ℤ)
        (recs : List FeatureRecord) (ws : List ProcWarning),
      map_interval iv sr total = some (s, e) →
      labels.length ≤ signals.length →
      processIntervals base labels signals sr total rest = some (recs, ws) →
      processIntervals base labels signals sr total (iv :: rest) =
        some (recordFor base labels iv (signals.map (fun c0 => sliceChan c0 s e)) :: recs,
          ws)) := by
  refine ⟨?_, record_lls labels slices, ?_⟩
  · have hne : ch ≠ [] := by
      intro h
      rw [h] at h2
      simp at h2
    unfold lineLengthFeature
    rw [if_pos ⟨npVariance_const ch v hall hne, h2⟩]
  · intro signals sr total rest s e recs ws hacc hlab hrest
    exact processIntervals_accept base labels signals sr total iv rest s e recs ws
      hacc hlab hrest

lemma process_file_run (base : String) (labels : List String) (sr : ℚ)
    (src : LogSource) (ch0 : List ℝ) (restCh : List (List ℝ))
    (hrect : ∀ ch ∈ restCh, ch.length = ch0.length)
    (r : List FeatureRecord × List ProcWarning)
    (hne : (parse_log_file src).1.isEmpty = false)
    (hproc : processIntervals base labels (ch0 :: restCh) sr ch0.length
        (parse_log_file src).1 = some r) :
    process_file base (ch0 :: restCh) labels sr src = (some r.1, r.2) := by
  unfold process_file
  dsimp only
  rw [if_pos hrect,
    if_neg (show ¬((parse_log_file src).1.isEmpty = true) by
      rw [hne]; exact Bool.false_ne_true),
    hproc]

lemma lineLengthFeature_single (x : ℝ) : lineLengthFeature [x] = some 0 := by
  unfold lineLengthFeature
  rw [if_neg (by intro hcon; exact absurd hcon.2 (by norm_num))]
  have hn : normalizeChan [x] = [(x - npMean [x]) / npStd [x]] := rfl
  rw [hn]
  simp [calculate_line_length, diffs]

/-- C8 counterexample: one channel with the single-sample slice [5.0]
(interval [0, 1/100] at rate 100, sample range [0, 1)).  The slice has zero
variance, yet the emitted line-length feature is the finite value 0.0
(`np.diff` of a one-element array is empty and `np.sum([]) = 0.0`), not a
non-finite value as the claim requires. -/
theorem c8_counterexample :
    process_file "f" [[(5 : ℝ)]] ["c"] 100
        ⟨[[LogToken.floatTok 0, LogToken.word "x", LogToken.intTok 5],
          [LogToken.floatTok (1 / 100), LogToken.word "x", LogToken.intTok 6]],
         false⟩ =
      (some [recordFor "f" ["c"] ⟨none, 0, 1 / 100⟩ [[(5 : ℝ)]]], []) ∧
    (recordFor "f" ["c"] ⟨none, 0, 1 / 100⟩ [[(5 : ℝ)]]).channelFeatures =
      [("c", some (0 : ℝ), (5 : ℝ))] ∧
    some (0 : ℝ) ≠ (none : Option ℝ) := by
  have hpar : (parse_log_file
      ⟨[[LogToken.floatTok 0, LogToken.word "x", LogToken.intTok 5],
        [LogToken.floatTok (1 / 100), LogToken.word "x", LogToken.intTok 6]],
       false⟩).1 = [⟨none, 0, 1 / 100⟩] := rfl
  have hmap : map_interval ⟨none, 0, 1 / 100⟩ 100 1 = some (0, 1) := by
    have h0 : pyInt ((0 : ℚ) * 100) = 0 := by
      unfold pyInt
      rw [if_pos (by norm_num)]
      norm_num
    have h1 : pyInt (((1 : ℚ) / 100) * 100) = 1 := by
      unfold pyInt
      rw [if_pos (by norm_num)]
      norm_num
    unfold map_interval
    dsimp only
    rw [h0, h1]
    norm_num
  have hsl : ([[(5 : ℝ)]].map fun ch => sliceChan ch 0 1) = [[(5 : ℝ)]] := rfl
  have hproc : processIntervals "f" ["c"] [[(5 : ℝ)]] 100 1 [⟨none, 0, 1 / 100⟩] =
      some ([recordFor "f" ["c"] ⟨none, 0, 1 / 100⟩ [[(5 : ℝ)]]], []) := by
    have hacc := processIntervals_accept "f" ["c"] [[(5 : ℝ)]] 100 1
      ⟨none, 0, 1 / 100⟩ [] 0 1 [] [] hmap (by norm_num) rfl
    rw [hsl] at hacc
    exact hacc
  have hmean : calculate_mean [(5 : ℝ)] = 5 := by
    unfold calculate_mean npMean
    simp
  refine ⟨?_, ?_, by simp⟩
  · have hrun := process_file_run "f" ["c"] 100
      ⟨[[LogToken.floatTok 0, LogToken.word "x", LogToken.intTok 5],
        [LogToken.floatTok (1 / 100), LogToken.word "x", LogToken.intTok 6]],
       false⟩ [(5 : ℝ)] []
      (by intro ch hch; simp at hch)
      ([recordFor "f" ["c"] ⟨none, 0, 1 / 100⟩ [[(5 : ℝ)]]], [])
      (by rw [hpar]; rfl)
      (by rw [hpar]; exact hproc)
    simpa using hrun
  · have hrec : (recordFor "f" ["c"] ⟨none, 0, 1 / 100⟩ [[(5 : ℝ)]]).channelFeatures =
        [("c", lineLengthFeature [(5 : ℝ)], calculate_mean [(5 : ℝ)])] := rfl
    rw [hrec, lineLengthFeature_single, hmean]

/-- C8 witness (amended claim): the two-sample all-equal slice [1, 1] yields
the non-finite line-length marker, it is surfaced as-is in the record's
line-length column, and an accepted interval still emits its record. -/
theorem c8_witness :
    (∀ x ∈ [(1 : ℝ), 1], x = 1) ∧ 2 ≤ ([(1 : ℝ), 1]).length ∧
    (lineLengthFeature [(1 : ℝ), 1] = none ∧
     (recordFor "f" ["c"] ⟨none, 0, 1 / 50⟩ [[(1 : ℝ), 1]]).channelFeatures.map
        (fun t => t.2.1) =
      ([[(1 : ℝ), 1]].take (["c"] : List String).length).map lineLengthFeature ∧
     (∀ (signals : List (List ℝ)) (sr : ℚ) (total : ℕ)
        (rest : List StimulusInterval) (s e : ℤ)
        (recs : List FeatureRecord) (ws : List ProcWarning),
      map_interval ⟨none, 0, 1 / 50⟩ sr total = some (s, e) →
      (["c"] : List String).length ≤ signals.length →
      processIntervals "f" ["c"] signals sr total rest = some (recs, ws) →
      processIntervals "f" ["c"] signals sr total (⟨none, 0, 1 / 50⟩ :: rest) =
        some (recordFor "f" ["c"] ⟨none, 0, 1 / 50⟩
            (signals.map (fun c0 => sliceChan c0 s e)) :: recs, ws))) :=
  ⟨by simp, by simp,
   c8_zero_variance_propagates [(1 : ℝ), 1] 1 (by simp) (by simp)
     "f" ["c"] ⟨none, 0, 1 / 50⟩ [[(1 : ℝ), 1]]⟩

/-- C1: for a session with 2 channels of 1000 samples at rate 100 and a log
parsing to the single interval [2, 4], `process_file` returns exactly one
FeatureRecord: its Duration is 2, its features are computed on the half-open
sample range [200, 400) of every channel (`sliceChan ch 200 400`), and it
carries exactly one line-length/mean pair per channel label (2 pairs, keyed by
the labels in order). -/
theorem c1_roundtrip (base : String) (signals : List (List ℝ))
    (labels : List String) (src : LogSource) (lbl : Option String)
    (hsig : signals.length = 2) (hlen : ∀ ch ∈ signals, ch.length = 1000)
    (hlab : labels.length = 2)
    (hparse : (parse_log_file src).1 = [⟨lbl, 2, 4⟩]) :
    process_file base signals labels 100 src =
      (some [recordFor base labels ⟨lbl, 2, 4⟩
        (signals.map (fun ch => sliceChan ch 200 400))], []) ∧
    (recordFor base labels ⟨lbl, 2, 4⟩
        (signals.map (fun ch => sliceChan ch 200 400))).duration = 2 ∧
    (recordFor base labels ⟨lbl, 2, 4⟩
        (signals.map (fun ch => sliceChan ch 200 400))).channelFeatures.map
        Prod.fst = labels ∧
    (recordFor base labels ⟨lbl, 2, 4⟩
        (signals.map (fun ch => sliceChan ch 200 400))).channelFeatures.length = 2 := by
  obtain ⟨c0, c1, rfl⟩ := List.length_eq_two.mp hsig
  have h0 : c0.length = 1000 := hlen c0 (by simp)
  have h1 : c1.length = 1000 := hlen c1 (by simp)
  have hmap : map_interval ⟨lbl, 2, 4⟩ 100 1000 = some (200, 400) := by
    have hs : pyInt ((2 : ℚ) * 100) = 200 := by
      unfold pyInt
      rw [if_pos (by norm_num)]
      norm_num
    have he : pyInt ((4 : ℚ) * 100) = 400 := by
      unfold pyInt
      rw [if_pos (by norm_num)]
      norm_num
    unfold map_interval
    dsimp only
    rw [hs, he]
    norm_num
  have hproc : processIntervals base labels [c0, c1] 100 c0.length [⟨lbl, 2, 4⟩] =
      some ([recordFor base labels ⟨lbl, 2, 4⟩
        ([c0, c1].map (fun ch => sliceChan ch 200 400))], []) := by
    rw [h0]
    exact processIntervals_accept base labels [c0, c1] 100 1000 ⟨lbl, 2, 4⟩ []
      200 400 [] [] hmap (by simp [hlab]) rfl
  refine ⟨?_, by simp [recordFor]; norm_num, ?_, ?_⟩
  · have hrun := process_file_run base labels 100 src c0 [c1]
      (by intro ch hch; simp only [List.mem_singleton] at hch; rw [hch, h1, h0])
      ([recordFor base labels ⟨lbl, 2, 4⟩
        ([c0, c1].map (fun ch => sliceChan ch 200 400))], [])
      (by rw [hparse]; rfl)
      (by rw [hparse]; exact hproc)
    simpa using hrun
  · exact record_labels labels ([c0, c1].map (fun ch => sliceChan ch 200 400))
      (by simp [hlab])
  · show (List.zipWith _ labels ([c0, c1].map (fun ch => sliceChan ch 200 400))).length = 2
    simp [hlab]

/-- C1 witness: two constant channels of 1000 samples, labels "a"/"b", and the
log "2 x 5" / "4 x 6". -/
theorem c1_witness :
    ([List.replicate 1000 (0 : ℝ), List.replicate 1000 (0 : ℝ)]).length = 2 ∧
    (∀ ch ∈ [List.replicate 1000 (0 : ℝ), List.replicate 1000 (0 : ℝ)],
      ch.length = 1000) ∧
    (["a", "b"] : List String).length = 2 ∧
    (parse_log_file ⟨[[LogToken.floatTok 2, LogToken.word "x", LogToken.intTok 5],
        [LogToken.floatTok 4, LogToken.word "x", LogToken.intTok 6]], false⟩).1 =
      [⟨none, 2, 4⟩] ∧
    (process_file "f" [List.replicate 1000 (0 : ℝ), List.replicate 1000 (0 : ℝ)]
        ["a", "b"] 100
        ⟨[[LogToken.floatTok 2, LogToken.word "x", LogToken.intTok 5],
          [LogToken.floatTok 4, LogToken.word "x", LogToken.intTok 6]], false⟩ =
      (some [recordFor "f" ["a", "b"] ⟨none, 2, 4⟩
        (([List.replicate 1000 (0 : ℝ), List.replicate 1000 (0 : ℝ)]).map
          (fun ch => sliceChan ch 200 400))], []) ∧
    (recordFor "f" ["a", "b"] ⟨none, 2, 4⟩
        (([List.replicate 1000 (0 : ℝ), List.replicate 1000 (0 : ℝ)]).map
          (fun ch => sliceChan ch 200 400))).duration = 2 ∧
    (recordFor "f" ["a", "b"] ⟨none, 2, 4⟩
        (([List.replicate 1000 (0 : ℝ), List.replicate 1000 (0 : ℝ)]).map
          (fun ch => sliceChan ch 200 400))).channelFeatures.map Prod.fst =
      ["a", "b"] ∧
    (recordFor "f" ["a", "b"] ⟨none, 2, 4⟩
        (([List.replicate 1000 (0 : ℝ), List.replicate 1000 (0 : ℝ)]).map
          (fun ch => sliceChan ch 200 400))).channelFeatures.length = 2) :=
  ⟨rfl,
   by
     intro ch hch
     rcases List.mem_cons.mp hch with h | h
     · rw [h, List.length_replicate]
     · rw [List.mem_singleton.mp h, List.length_replicate],
   rfl,
   rfl,
   c1_roundtrip "f" [List.replicate 1000 (0 : ℝ), List.replicate 1000 (0 : ℝ)]
     ["a", "b"]
     ⟨[[LogToken.floatTok 2, LogToken.word "x", LogToken.intTok 5],
       [LogToken.floatTok 4, LogToken.word "x", LogToken.intTok 6]], false⟩
     none rfl
     (by
       intro ch hch
       rcases List.mem_cons.mp hch with h | h
       · rw [h, List.length_replicate]
       · rw [List.mem_singleton.mp h, List.length_replicate])
     rfl rfl⟩
